import Mathlib

/-!
Verification of the socket-ref key-value state-synchronization protocol.

The definitions below are a shallow embedding of the repository's code:

* the Server Hub (function socketRefServer in src/src/client.js, second
  document: keyState map, keySubscribers index, subscribe and handleSet),
* the V1 Server Hub variant (src/unnamed/part_005),
* the Client Sync Engine (class SocketRefState in src/unnamed/part_001:
  init handshake, pending writes, rate limiting, the watch-based local
  mutation path),
* the shared-connection send queue (class SharedSocket in src/src/client.js:
  sendInternal, flushQueue, the onopen handler) and the V2 remote-update
  callback onRemoteUpdate.

Values synchronized by the protocol are opaque payloads; they are modelled
by a type parameter.  JS wall-clock readings (Date.now()) are modelled as
explicit Nat-valued clock arguments.  A JS field that may be absent
(undefined / null) is modelled as an Option.
-/

namespace SocketRef

/-- An Entry stored by the Server Hub for one key: the latest value and the
timestamp it became current.  Mirrors the values of the keyState map
(an object with value and timestamp fields) in socketRefServer. -/
structure Entry (α : Type) where
  value : α
  timestamp : Nat
deriving DecidableEq

/-- JS falsy-defaulting of an optional numeric field, the idiom
x || y used by the code (so both an absent field and the falsy
value 0 fall back to the default y). -/
def orFalsy (x : Option Nat) (y : Nat) : Nat :=
  match x with
  | some t => if t = 0 then y else t
  | none => y

/-- A hub-to-client wire message: the authoritative broadcast
record with fields key, value, timestamp (type field omitted since
only one kind of hub-to-client payload exists in the V2 server). -/
structure SetMsg (α : Type) where
  key : String
  value : α
  timestamp : Nat
deriving DecidableEq

/-- The Server Hub state of socketRefServer (src/src/client.js):
keyState maps a key to its Entry, keySubscribers maps a key to the set of
subscribed connections.  Connections are identified by a Nat id (JS
compares socket objects by identity); the insertion-ordered JS Set of
subscribers is modelled as a list.  Whether a connection's transport is
currently open (socket.readyState === OPEN) is outside the hub's own
state and is supplied to the handlers as a predicate on ids. -/
structure ServerState (α : Type) where
  keyState : String → Option (Entry α)
  subs : String → List Nat

/-- The hub's initial state: no Entries, no subscriptions. -/
def emptyServer (α : Type) : ServerState α :=
  ⟨fun _ => none, fun _ => []⟩

/-- The conflict-resolution test of handleSet, the condition
!current || now > current.timestamp of src/src/client.js line 300:
accept when no Entry exists or now is strictly greater than the stored
timestamp. -/
def lwwAccepts (cur : Option (Entry α)) (now : Nat) : Bool :=
  match cur with
  | none => true
  | some e => decide (now > e.timestamp)

/-- handleSet from socketRefServer (src/src/client.js, lines 295-313):
LWW acceptance.  now = timestamp || Date.now(); accept iff no Entry
exists for the key or now is strictly greater than the stored timestamp;
on acceptance store the new Entry and hand one set message to every
subscribed connection that is not the sender and whose transport is open.
The returned list holds the (recipient, message) pairs passed to send. -/
def handleSet (isOpen : Nat → Bool) (sender : Nat) (key : String) (value : α)
    (timestamp : Option Nat) (clock : Nat) (st : ServerState α) :
    ServerState α × List (Nat × SetMsg α) :=
  let now := orFalsy timestamp clock
  if lwwAccepts (st.keyState key) now then
    ({ st with keyState := fun k => if k = key then some ⟨value, now⟩ else st.keyState k },
     ((st.subs key).filter (fun c => c != sender && isOpen c)).map
       (fun c => (c, ⟨key, value, now⟩)))
  else (st, [])

/-- subscribe from socketRefServer (src/src/client.js, lines 271-285):
add the connection to the key's subscriber set (JS Set.add: append if not
already present), then, if an Entry exists for the key, send the current
value and timestamp to that connection only. -/
def subscribe (conn : Nat) (key : String) (st : ServerState α) :
    ServerState α × List (Nat × SetMsg α) :=
  let newSubs := if conn ∈ st.subs key then st.subs key else st.subs key ++ [conn]
  let st' : ServerState α :=
    { st with subs := fun k => if k = key then newSubs else st.subs k }
  match st.keyState key with
  | some cur => (st', [(conn, ⟨key, cur.value, cur.timestamp⟩)])
  | none => (st', [])

/-- One inbound update proposal as the hub receives it: the sending
connection, the key, the proposed value, the optional sender-supplied
timestamp, and the server's clock reading at handling time. -/
structure Proposal (α : Type) where
  sender : Nat
  key : String
  value : α
  timestamp : Option Nat
  clock : Nat

/-- Process a sequence of update proposals through handleSet,
keeping only the hub state (broadcasts are dropped). -/
def runServer (isOpen : Nat → Bool) (ps : List (Proposal α)) (st : ServerState α) :
    ServerState α :=
  match ps with
  | [] => st
  | p :: rest =>
      runServer isOpen rest (handleSet isOpen p.sender p.key p.value p.timestamp p.clock st).1

/-- The (value, now) pairs of the proposals for key k that handleSet
accepts along a run, in acceptance order. -/
def acceptedTrace (isOpen : Nat → Bool) (k : String) (ps : List (Proposal α))
    (st : ServerState α) : List (α × Nat) :=
  match ps with
  | [] => []
  | p :: rest =>
      let now := orFalsy p.timestamp p.clock
      let st' := (handleSet isOpen p.sender p.key p.value p.timestamp p.clock st).1
      (if p.key = k && lwwAccepts (st.keyState p.key) now then [(p.value, now)] else []) ++
        acceptedTrace isOpen k rest st'

/-- The stored timestamp for a key, reading 0 when no Entry exists. -/
def entryTs (st : ServerState α) (k : String) : Nat :=
  match st.keyState k with
  | some e => e.timestamp
  | none => 0

/-- The local per-ref state of the V2 client (createSocketRef in
src/src/client.js): the last timestamp this engine considers
authoritative, and the Vue ref's current value.  The transient
isReceiving re-entrancy flag is set and cleared synchronously inside the
callback (false before and after), so it does not appear as a field. -/
structure RefState (α : Type) where
  localTimestamp : Nat
  value : α
deriving DecidableEq

/-- onRemoteUpdate from src/src/client.js (lines 175-189): a broadcast
with a stale or duplicate timestamp (ts <= localTimestamp) is ignored;
otherwise its value and timestamp are adopted as local state. -/
def onRemoteUpdate (val : α) (ts : Nat) (s : RefState α) : RefState α :=
  if ts ≤ s.localTimestamp then s
  else { localTimestamp := ts, value := val }

/-- The outbound-queue-relevant state of SharedSocket
(src/src/client.js): the isReady flag set by onopen and cleared by
onclose, the transport's own open state (ws.readyState === OPEN), the
pending message queue, and the list of payloads already handed to
ws.send, in order.  The payload type is left abstract: the class queues
whatever objects are passed to sendInternal. -/
structure SocketState (μ : Type) where
  isReady : Bool
  wsOpen : Bool
  msgQueue : List μ
  transmitted : List μ
deriving DecidableEq

/-- sendInternal from SharedSocket (src/src/client.js, lines 111-117):
transmit right away when isReady and the transport is open, otherwise
push the payload onto the outbound queue. -/
def sendInternal (payload : μ) (s : SocketState μ) : SocketState μ :=
  if s.isReady && s.wsOpen then { s with transmitted := s.transmitted ++ [payload] }
  else { s with msgQueue := s.msgQueue ++ [payload] }

/-- One iteration bound for the flushQueue while-loop: each pass shifts
the head of the queue and feeds it back to sendInternal.  The fuel equals
the queue length at entry; in the only calling context (the onopen
handler, where isReady and the transport are true) each pass shortens
the queue by one, so the fuel is exact and the loop terminates. -/
def flushGo : Nat → SocketState μ → SocketState μ
  | 0, s => s
  | Nat.succ n, s =>
      match s.msgQueue with
      | [] => s
      | m :: rest => flushGo n (sendInternal m { s with msgQueue := rest })

/-- flushQueue from SharedSocket (src/src/client.js, lines 119-123). -/
def flushQueue (s : SocketState μ) : SocketState μ :=
  flushGo s.msgQueue.length s

/-- The onopen handler of SharedSocket.connect (src/src/client.js, lines
61-69): mark the connection ready (the transport has just opened), flush
the queue, then re-send a sub message for every active key; the resub
payloads are passed in as a list. -/
def onOpen (resubs : List μ) (s : SocketState μ) : SocketState μ :=
  let s' := flushQueue { s with isReady := true, wsOpen := true }
  resubs.foldl (fun acc m => sendInternal m acc) s'

/-- A pending write of the V1 client engine: a value proposed while the
socket could not carry it, together with the timestamp it was stamped
with. -/
structure Pending (α : Type) where
  value : α
  timestamp : Nat
deriving DecidableEq

/-- An engine-to-hub wire message of the V1 protocol: the update proposal
sent by SocketRefState.write. -/
structure UpdateMsg (α : Type) where
  key : String
  value : α
  timestamp : Nat
deriving DecidableEq

/-- The state of the V1 Client Sync Engine, class SocketRefState in
src/unnamed/part_001: one engine per key.  stateValue is the current
value of the Vue ref the engine syncs (the engine holds it via a
WeakRef; the model assumes the ref alive).  readyOnly is the source's
own name for the read-only flag. -/
structure EngineState (α : Type) where
  key : String
  readyOnly : Bool
  defaultValue : α
  pendingWrite : Option (Pending α)
  timestamp : Nat
  updatesLastSecond : Nat
  lastRateLimitReset : Nat
  rateLimitedUntil : Nat
  isProcessingSocketMessage : Bool
  ready : Bool
  stateValue : α
deriving DecidableEq

/-- SocketRefState.write (src/unnamed/part_001, lines 369-410): drop when
read-only; drop during a rate-limit cooldown; reset the 1-second window
counter when more than 1000 ms have passed since the last reset; count
the write and, past 100 in the window, drop it and start a 1-second
cooldown; otherwise stamp ts = forceTimestamp || now, record it as the
engine timestamp and either send the update (socket open) or store it as
the pending write.  clock is Date.now() at the call; sockOpen is
socket.readyState === WebSocket.OPEN.  Returns the new state and the
message sent, if any. -/
def write (newValue : α) (forceTimestamp : Option Nat) (sockOpen : Bool) (clock : Nat)
    (s : EngineState α) : EngineState α × Option (UpdateMsg α) :=
  if s.readyOnly then (s, none)
  else if clock < s.rateLimitedUntil then (s, none)
  else
    let s1 := if clock - s.lastRateLimitReset > 1000 then
        { s with updatesLastSecond := 0, lastRateLimitReset := clock } else s
    let s2 := { s1 with updatesLastSecond := s1.updatesLastSecond + 1 }
    if s2.updatesLastSecond > 100 then
      ({ s2 with rateLimitedUntil := clock + 1000 }, none)
    else
      let ts := orFalsy forceTimestamp clock
      let s3 := { s2 with timestamp := ts }
      if sockOpen then (s3, some ⟨s.key, newValue, ts⟩)
      else ({ s3 with pendingWrite := some ⟨newValue, ts⟩ }, none)

/-- A local mutation of the synced ref as seen by the sync layer: the ref
now holds newVal, and the sync watcher installed by createSocketRef
(src/unnamed/part_001, lines 160-167) runs with flush sync: it does
nothing while a socket message is being applied, calls write when the
engine is ready, and otherwise does nothing. -/
def localMutation (newVal : α) (sockOpen : Bool) (clock : Nat) (s : EngineState α) :
    EngineState α × Option (UpdateMsg α) :=
  let s0 := { s with stateValue := newVal }
  if s0.isProcessingSocketMessage then (s0, none)
  else if s0.ready then write newVal none sockOpen clock s0
  else (s0, none)

/-- The init-message branch of the SocketRefState message handler
(src/unnamed/part_001, lines 285-331), run on the handshake reply.
serverValue is the value field of the reply (none models JSON null:
the server has no Entry), serverTs its timestamp field; the code reads
serverTimestamp = msg.timestamp || 0.  When the server has no value: a
pending write (else the default value) is written back and the engine
timestamp is then set to Date.now(), marking this client source of
truth.  When the server has a value: a pending write with a strictly
newer timestamp is kept and re-sent with its original timestamp,
otherwise the server value and timestamp are adopted.  In every branch
the pending write is then cleared and the engine marked ready.
isProcessingSocketMessage is true for the whole handler and restored in
the finally block, so it is net unchanged and the interior state.value
assignments trigger no watcher write. -/
def handleInit (serverValue : Option α) (serverTs : Option Nat) (sockOpen : Bool)
    (clock : Nat) (s : EngineState α) : EngineState α × Option (UpdateMsg α) :=
  let serverTimestamp := serverTs.getD 0
  match serverValue with
  | none =>
      match s.pendingWrite with
      | some pw =>
          let s1 := { s with stateValue := pw.value }
          let r := write pw.value (some pw.timestamp) sockOpen clock s1
          ({ r.1 with timestamp := clock, pendingWrite := none, ready := true }, r.2)
      | none =>
          let s1 := { s with stateValue := s.defaultValue }
          let r := write s.defaultValue none sockOpen clock s1
          ({ r.1 with timestamp := clock, pendingWrite := none, ready := true }, r.2)
  | some sv =>
      match s.pendingWrite with
      | some pw =>
          if pw.timestamp > serverTimestamp then
            let s1 := { s with stateValue := pw.value }
            let r := write pw.value (some pw.timestamp) sockOpen clock s1
            ({ r.1 with timestamp := pw.timestamp, pendingWrite := none, ready := true }, r.2)
          else
            ({ s with
                stateValue := sv, timestamp := serverTimestamp,
                pendingWrite := none, ready := true }, none)
      | none =>
          ({ s with
              stateValue := sv, timestamp := serverTimestamp,
              pendingWrite := none, ready := true }, none)

/-- The normal-update branch of the SocketRefState message handler
(src/unnamed/part_001, lines 333-340): ignore the message when its
timestamp is not newer than the engine's, else adopt its timestamp and
value. -/
def applyNormalUpdate (msgValue : α) (msgTimestamp : Nat) (s : EngineState α) :
    EngineState α :=
  if msgTimestamp ≤ s.timestamp then s
  else { s with timestamp := msgTimestamp, stateValue := msgValue }

/-- 1 when a message was produced, 0 otherwise. -/
def countMsg : Option (UpdateMsg α) → Nat
  | some _ => 1
  | none => 0

/-- Issue a sequence of local writes through the sync watcher, each given
as (clock reading, new value); returns the final engine state and how
many outbound update messages were sent. -/
def runWrites (sockOpen : Bool) (reqs : List (Nat × α)) (s : EngineState α) :
    EngineState α × Nat :=
  match reqs with
  | [] => (s, 0)
  | (t, v) :: rest =>
      let r := localMutation v sockOpen t s
      let rec' := runWrites sockOpen rest r.1
      (rec'.1, countMsg r.2 + rec'.2)

/-- A concrete hub state for witnesses and counterexamples: no Entries,
connections 1 and 2 subscribed to key k. -/
def demoServer : ServerState Int :=
  { emptyServer Int with subs := fun k => if k = "k" then [1, 2] else [] }

/-- A concrete engine state for witnesses and counterexamples: fresh,
ready, writable. -/
def engine0 : EngineState Int :=
  { key := "k", readyOnly := false, defaultValue := 0, pendingWrite := none,
    timestamp := 0, updatesLastSecond := 0, lastRateLimitReset := 0,
    rateLimitedUntil := 0, isProcessingSocketMessage := false, ready := true,
    stateValue := 0 }

/-- 101 concrete write requests at clock readings 0..100, all inside one
one-second window. -/
def reqs101 : List (Nat × Int) := (List.range 101).map (fun i => (i, 1))

/-- Unfolding lemma: an accepted handleSet call stores the new Entry and
returns the broadcast list. -/
theorem handleSet_eq_accept (isOpen : Nat → Bool) (sender : Nat) (k : String) (v : α)
    (ts : Option Nat) (clock : Nat) (st : ServerState α)
    (h : lwwAccepts (st.keyState k) (orFalsy ts clock) = true) :
    handleSet isOpen sender k v ts clock st =
      ({ st with
          keyState := fun kk => if kk = k then some ⟨v, orFalsy ts clock⟩
            else st.keyState kk },
       ((st.subs k).filter (fun c => c != sender && isOpen c)).map
         (fun c => (c, ⟨k, v, orFalsy ts clock⟩))) := by
  simp [handleSet, h]

/-- Unfolding lemma: a rejected handleSet call changes nothing and sends
nothing. -/
theorem handleSet_eq_reject (isOpen : Nat → Bool) (sender : Nat) (k : String) (v : α)
    (ts : Option Nat) (clock : Nat) (st : ServerState α)
    (h : lwwAccepts (st.keyState k) (orFalsy ts clock) = false) :
    handleSet isOpen sender k v ts clock st = (st, []) := by
  simp [handleSet, h]

/-- The acceptance test holds iff no Entry exists or the stored timestamp
is strictly smaller. -/
theorem lwwAccepts_true_iff (cur : Option (Entry α)) (now : Nat) :
    lwwAccepts cur now = true ↔
      (cur = none ∨ ∃ e, cur = some e ∧ e.timestamp < now) := by
  cases cur with
  | none => simp [lwwAccepts]
  | some e => simp [lwwAccepts]

/-- The acceptance test fails iff an Entry exists whose timestamp is at
least now. -/
theorem lwwAccepts_false_iff (cur : Option (Entry α)) (now : Nat) :
    lwwAccepts cur now = false ↔ ∃ e, cur = some e ∧ now ≤ e.timestamp := by
  cases cur with
  | none => simp [lwwAccepts]
  | some e => simp [lwwAccepts]

/-- C5: a set message whose timestamp is at most the engine's local
timestamp leaves local value and timestamp unchanged; one with a strictly
greater timestamp makes the engine adopt both the message's value and its
timestamp. -/
theorem c5_remote_update_guard (s : RefState α) (val : α) (ts : Nat) :
    (ts ≤ s.localTimestamp → onRemoteUpdate val ts s = s) ∧
    (s.localTimestamp < ts →
      onRemoteUpdate val ts s = { localTimestamp := ts, value := val }) := by
  constructor
  · intro h
    simp [onRemoteUpdate, h]
  · intro h
    simp [onRemoteUpdate, Nat.not_le.mpr h]

/-- Witness for C5 at a concrete stale message and a concrete fresh one. -/
theorem c5_witness :
    onRemoteUpdate (5 : Int) 3 ⟨10, 0⟩ = ⟨10, 0⟩ ∧
    onRemoteUpdate (5 : Int) 11 ⟨10, 0⟩ = ⟨11, 5⟩ :=
  ⟨(c5_remote_update_guard ⟨10, 0⟩ 5 3).1 (by decide),
   (c5_remote_update_guard ⟨10, 0⟩ 5 11).2 (by decide)⟩

/-- C8: handling sub from connection C adds (C, key) to the subscription
index, leaves the Entry map and other keys' subscriber sets unchanged,
and sends exactly one set message carrying the stored value and timestamp
to C alone when an Entry exists, and nothing at all otherwise. -/
theorem c8_sub_snapshot (conn : Nat) (k : String) (st : ServerState α) :
    conn ∈ (subscribe conn k st).1.subs k ∧
    (∀ k', k' ≠ k → (subscribe conn k st).1.subs k' = st.subs k') ∧
    (subscribe conn k st).1.keyState = st.keyState ∧
    (∀ e, st.keyState k = some e →
      (subscribe conn k st).2 = [(conn, ⟨k, e.value, e.timestamp⟩)]) ∧
    (st.keyState k = none → (subscribe conn k st).2 = []) := by
  unfold subscribe
  cases hk : st.keyState k with
  | none =>
      refine ⟨?_, ?_, rfl, ?_, ?_⟩
      · by_cases hc : conn ∈ st.subs k <;> simp [hc]
      · intro k' hk'
        simp [hk']
      · intro e he
        exact Option.noConfusion he
      · intro _
        rfl
  | some cur =>
      refine ⟨?_, ?_, rfl, ?_, ?_⟩
      · by_cases hc : conn ∈ st.subs k <;> simp [hc]
      · intro k' hk'
        simp [hk']
      · intro e he
        cases he
        rfl
      · intro h
        exact Option.noConfusion h

/-- Witness for C8 on a concrete hub holding an Entry for key k. -/
theorem c8_witness :
    3 ∈ (subscribe 3 "k"
      ({ demoServer with
          keyState := fun k => if k = "k" then some ⟨7, 100⟩ else none })).1.subs "k" ∧
    (subscribe 3 "k"
      ({ demoServer with
          keyState := fun k => if k = "k" then some ⟨7, 100⟩ else none })).2 =
      [(3, ⟨"k", 7, 100⟩)] :=
  ⟨(c8_sub_snapshot 3 "k" _).1,
   (c8_sub_snapshot 3 "k" _).2.2.2.1 ⟨7, 100⟩ (by simp)⟩

/-- C10: the Server Hub treats an update whose timestamp field is the
falsy value 0 exactly as one whose timestamp is absent (it substitutes
its clock reading), and with a positive clock every stored Entry keeps a
positive timestamp, so a sender cannot assert logical time 0. -/
theorem c10_falsy_timestamp (isOpen : Nat → Bool) (sender : Nat) (k : String) (v : α)
    (clock : Nat) (st : ServerState α) :
    handleSet isOpen sender k v (some 0) clock st =
      handleSet isOpen sender k v none clock st ∧
    (0 < clock → (∀ k' e, st.keyState k' = some e → 0 < e.timestamp) →
      ∀ ts k' e, (handleSet isOpen sender k v ts clock st).1.keyState k' = some e →
        0 < e.timestamp) := by
  constructor
  · rfl
  · intro hclock hinv ts k' e he
    have hnow : 0 < orFalsy ts clock := by
      unfold orFalsy
      match ts with
      | none => exact hclock
      | some t =>
          by_cases h0 : t = 0
          · simp [h0, hclock]
          · simpa [h0] using Nat.pos_of_ne_zero h0
    cases hacc : lwwAccepts (st.keyState k) (orFalsy ts clock) with
    | true =>
        rw [handleSet_eq_accept isOpen sender k v ts clock st hacc] at he
        simp only at he
        by_cases hkk : k' = k
        · subst hkk
          rw [if_pos rfl] at he
          cases he
          exact hnow
        · rw [if_neg hkk] at he
          exact hinv k' e he
    | false =>
        rw [handleSet_eq_reject isOpen sender k v ts clock st hacc] at he
        exact hinv k' e he

/-- Witness for C10 at a concrete proposal with supplied timestamp 0. -/
theorem c10_witness :
    handleSet (fun _ => true) 0 "k" (7 : Int) (some 0) 5 (emptyServer Int) =
      handleSet (fun _ => true) 0 "k" (7 : Int) none 5 (emptyServer Int) ∧
    0 < (⟨7, 5⟩ : Entry Int).timestamp :=
  ⟨(c10_falsy_timestamp (fun _ => true) 0 "k" (7 : Int) 5 (emptyServer Int)).1,
   (c10_falsy_timestamp (fun _ => true) 0 "k" (7 : Int) 5 (emptyServer Int)).2
     (by decide) (by intro k' e he; cases he) (some 0) "k" ⟨7, 5⟩ (by decide)⟩

/-- When the connection can transmit, sendInternal appends the payload to
the transmitted list and touches nothing else. -/
theorem sendInternal_ready (m : μ) (s : SocketState μ) (h1 : s.isReady = true)
    (h2 : s.wsOpen = true) :
    sendInternal m s = { s with transmitted := s.transmitted ++ [m] } := by
  simp [sendInternal, h1, h2]

/-- The flushQueue loop, run with a transmitting connection, empties the
queue onto the transmitted list in queue order. -/
theorem flushGo_ready :
    ∀ (q : List μ) (s : SocketState μ), s.isReady = true → s.wsOpen = true →
      s.msgQueue = q →
      flushGo q.length s = { s with msgQueue := [], transmitted := s.transmitted ++ q } := by
  intro q
  induction q with
  | nil =>
      intro s h1 h2 hq
      cases s
      simp only at hq
      simp [flushGo, hq]
  | cons m rest ih =>
      intro s h1 h2 hq
      have step : flushGo (m :: rest).length s =
          flushGo rest.length (sendInternal m { s with msgQueue := rest }) := by
        simp [flushGo, hq]
      rw [step, sendInternal_ready m { s with msgQueue := rest } h1 h2]
      rw [ih { s with msgQueue := rest, transmitted := s.transmitted ++ [m] } h1 h2 rfl]
      simp

/-- Folding sendInternal over a list on a transmitting connection appends
the list to the transmitted output, in order. -/
theorem foldl_sendInternal_ready :
    ∀ (ms : List μ) (s : SocketState μ), s.isReady = true → s.wsOpen = true →
      ms.foldl (fun acc m => sendInternal m acc) s =
        { s with transmitted := s.transmitted ++ ms } := by
  intro ms
  induction ms with
  | nil =>
      intro s _ _
      simp
  | cons m rest ih =>
      intro s h1 h2
      rw [List.foldl_cons, sendInternal_ready m s h1 h2]
      rw [ih { s with transmitted := s.transmitted ++ [m] } h1 h2]
      simp

/-- C9: a message handed to the connection while it cannot transmit is
appended to the outbound queue (nothing is transmitted or lost), and the
onopen handler flushes the whole queue so that the queued messages are
transmitted after the earlier traffic, in exactly their original send
order, followed by the re-subscription messages; the queue ends empty. -/
theorem c9_queue_flush_order (s : SocketState μ) (m : μ) (resubs : List μ) :
    ((s.isReady && s.wsOpen) = false →
      sendInternal m s = { s with msgQueue := s.msgQueue ++ [m] }) ∧
    (onOpen resubs s).transmitted = s.transmitted ++ s.msgQueue ++ resubs ∧
    (onOpen resubs s).msgQueue = [] := by
  have hopen : onOpen resubs s =
      { s with
          isReady := true, wsOpen := true, msgQueue := [],
          transmitted := s.transmitted ++ s.msgQueue ++ resubs } := by
    unfold onOpen flushQueue
    rw [flushGo_ready s.msgQueue { s with isReady := true, wsOpen := true } rfl rfl rfl]
    rw [foldl_sendInternal_ready resubs _ rfl rfl]
  refine ⟨?_, ?_, ?_⟩
  · intro h
    simp [sendInternal, h]
  · rw [hopen]
  · rw [hopen]

/-- Witness for C9: two messages queued before open are transmitted in
order by the onopen flush, ahead of a re-subscription message. -/
theorem c9_witness :
    sendInternal 2 (⟨false, false, [1], []⟩ : SocketState Nat) =
      ⟨false, false, [1, 2], []⟩ ∧
    (onOpen [9] (⟨false, false, [1, 2], []⟩ : SocketState Nat)).transmitted =
      [1, 2, 9] ∧
    (onOpen [9] (⟨false, false, [1, 2], []⟩ : SocketState Nat)).msgQueue = [] :=
  ⟨(c9_queue_flush_order ⟨false, false, [1], []⟩ 2 [9]).1 rfl,
   (c9_queue_flush_order ⟨false, false, [1, 2], []⟩ 2 [9]).2.1,
   (c9_queue_flush_order ⟨false, false, [1, 2], []⟩ 2 [9]).2.2⟩

/-- C6 (amended): a local mutation made while the engine is not yet
Ready is ignored by the sync layer — the watcher installed by
createSocketRef calls write only when the engine is ready, so nothing is
sent and the PendingWrite is left unchanged.  A mutation made while the
engine is Ready but the socket is not open (and not blocked by the
read-only flag or the rate limiter) is stored as the engine's single
PendingWrite, overwriting any previously pending write rather than
queueing behind it, with no update message sent for it. -/
theorem c6_pending_write (s : EngineState α) (v : α) (clock : Nat)
    (hflag : s.isProcessingSocketMessage = false) :
    (s.ready = false → ∀ so,
      localMutation v so clock s = ({ s with stateValue := v }, none)) ∧
    (s.ready = true → s.readyOnly = false → s.rateLimitedUntil ≤ clock →
      s.updatesLastSecond < 100 →
      (localMutation v false clock s).2 = none ∧
      (localMutation v false clock s).1.pendingWrite = some ⟨v, clock⟩) := by
  constructor
  · intro hready so
    simp [localMutation, hflag, hready]
  · intro hready hro hcool hcount
    have hnotlt : ¬ clock < s.rateLimitedUntil := Nat.not_lt.mpr hcool
    unfold localMutation write
    simp only [hflag, hready, hro, if_neg hnotlt]
    by_cases hwin : clock - s.lastRateLimitReset > 1000
    · simp [hwin, orFalsy]
    · simp only [hwin, if_false]
      rw [if_neg (by omega : ¬ 100 < s.updatesLastSecond + 1)]
      simp [orFalsy]

/-- Counterexample to C6 as stated: on a fresh engine that is not yet
Ready, a local mutation is neither sent nor stored as the PendingWrite —
the pending write stays empty, contradicting the claim that it is stored
(the claim's own later reconciliation of the pending write therefore
never sees it). -/
theorem c6_counterexample :
    (localMutation (5 : Int) true 10 { engine0 with ready := false }).1.pendingWrite =
      none ∧
    (localMutation (5 : Int) true 10 { engine0 with ready := false }).2 = none := by
  constructor <;> rfl

/-- Witness for C6 at a concrete ready engine with a closed socket and a
previously pending write, which gets overwritten. -/
theorem c6_witness :
    (localMutation (5 : Int) false 10
      { engine0 with pendingWrite := some ⟨3, 2⟩ }).2 = none ∧
    (localMutation (5 : Int) false 10
      { engine0 with pendingWrite := some ⟨3, 2⟩ }).1.pendingWrite = some ⟨5, 10⟩ :=
  (c6_pending_write { engine0 with pendingWrite := some ⟨3, 2⟩ } (5 : Int) 10 rfl).2
    rfl rfl (by decide) (by decide)

/-- C1 (amended): with now = the proposal's timestamp when supplied and
nonzero, else the server clock (a supplied falsy timestamp is treated as
absent), a proposal is accepted — the Entry for the key becomes
(value, now), other keys untouched — iff no Entry exists for the key or
now is strictly greater than the stored timestamp; a losing proposal
changes nothing and broadcasts nothing; and resubmitting the same
proposal with the same supplied nonzero timestamp is rejected, so it
causes exactly one accepted state change and at most one broadcast. -/
theorem c1_lww_acceptance (isOpen : Nat → Bool) (sender : Nat) (k : String) (v : α)
    (ts : Option Nat) (clock clock2 : Nat) (st : ServerState α)
    (hts : ∀ t, ts = some t → t ≠ 0) :
    ((st.keyState k = none ∨ ∃ e, st.keyState k = some e ∧
        e.timestamp < orFalsy ts clock) →
      (handleSet isOpen sender k v ts clock st).1.keyState k =
        some ⟨v, orFalsy ts clock⟩ ∧
      ∀ k', k' ≠ k →
        (handleSet isOpen sender k v ts clock st).1.keyState k' = st.keyState k') ∧
    ((∃ e, st.keyState k = some e ∧ orFalsy ts clock ≤ e.timestamp) →
      handleSet isOpen sender k v ts clock st = (st, [])) ∧
    (∀ t, ts = some t →
      handleSet isOpen sender k v ts clock2
          (handleSet isOpen sender k v ts clock st).1 =
        ((handleSet isOpen sender k v ts clock st).1, [])) := by
  refine ⟨?_, ?_, ?_⟩
  · intro hacc
    have hb : lwwAccepts (st.keyState k) (orFalsy ts clock) = true :=
      (lwwAccepts_true_iff _ _).mpr hacc
    rw [handleSet_eq_accept isOpen sender k v ts clock st hb]
    constructor
    · simp
    · intro k' hk'
      simp [hk']
  · intro hrej
    exact handleSet_eq_reject isOpen sender k v ts clock st
      ((lwwAccepts_false_iff _ _).mpr hrej)
  · intro t hsome
    subst hsome
    have ht : orFalsy (some t) clock = t := by
      simp [orFalsy, hts t rfl]
    have ht2 : orFalsy (some t) clock2 = t := by
      simp [orFalsy, hts t rfl]
    cases hb : lwwAccepts (st.keyState k) (orFalsy (some t) clock) with
    | true =>
        rw [handleSet_eq_accept isOpen sender k v (some t) clock st hb]
        apply handleSet_eq_reject
        apply (lwwAccepts_false_iff _ _).mpr
        refine ⟨⟨v, orFalsy (some t) clock⟩, by simp, ?_⟩
        rw [ht, ht2]
    | false =>
        rw [handleSet_eq_reject isOpen sender k v (some t) clock st hb]
        exact handleSet_eq_reject isOpen sender k v (some t) clock2 st
          (by rw [ht2]; rw [ht] at hb; exact hb)

/-- Counterexample to C1 as stated: the same proposal for key k with the
same supplied timestamp 0, submitted twice (server clock 5 then 6), is
accepted both times — two accepted state changes and a second broadcast
to subscriber 1 — because the hub computes now with the falsy-check
timestamp || Date.now(), not a nullish check; the claim's now would be 0
and would require the first stored Entry to be (7, 0) and the second
submission to be rejected. -/
theorem c1_counterexample :
    (handleSet (fun _ => true) 0 "k" (7 : Int) (some 0) 5 demoServer).1.keyState "k" =
      some ⟨7, 5⟩ ∧
    (handleSet (fun _ => true) 0 "k" (7 : Int) (some 0) 6
      (handleSet (fun _ => true) 0 "k" (7 : Int) (some 0) 5 demoServer).1).1.keyState "k" =
      some ⟨7, 6⟩ ∧
    (handleSet (fun _ => true) 0 "k" (7 : Int) (some 0) 6
      (handleSet (fun _ => true) 0 "k" (7 : Int) (some 0) 5 demoServer).1).2 ≠ [] := by
  refine ⟨rfl, rfl, ?_⟩
  decide

/-- Witness for C1 at a concrete accepted proposal and its resubmission. -/
theorem c1_witness :
    (handleSet (fun _ => true) 0 "k" (7 : Int) (some 100) 50 demoServer).1.keyState "k" =
      some ⟨7, 100⟩ ∧
    handleSet (fun _ => true) 0 "k" (7 : Int) (some 100) 60
        (handleSet (fun _ => true) 0 "k" (7 : Int) (some 100) 50 demoServer).1 =
      ((handleSet (fun _ => true) 0 "k" (7 : Int) (some 100) 50 demoServer).1, []) :=
  ⟨((c1_lww_acceptance (fun _ => true) 0 "k" (7 : Int) (some 100) 50 60 demoServer
      (by intro t h; cases h; decide)).1 (Or.inl rfl)).1,
   (c1_lww_acceptance (fun _ => true) 0 "k" (7 : Int) (some 100) 50 60 demoServer
      (by intro t h; cases h; decide)).2.2 100 rfl⟩

/-- C2 (amended): when the hub accepts an update from connection C for a
key, the broadcast list contains the message set(key, value, now) for
exactly the connections currently subscribed to that key whose transport
is open, the originator C excluded; subscribed-but-closed connections are
skipped, no unsubscribed connection receives anything, and a rejected
update produces no message at all (no broadcast and no error to the
sender). -/
theorem c2_broadcast_recipients (isOpen : Nat → Bool) (sender : Nat) (k : String)
    (v : α) (ts : Option Nat) (clock : Nat) (st : ServerState α) :
    ((st.keyState k = none ∨ ∃ e, st.keyState k = some e ∧
        e.timestamp < orFalsy ts clock) →
      ∀ c msg, ((c, msg) ∈ (handleSet isOpen sender k v ts clock st).2 ↔
        (c ∈ st.subs k ∧ c ≠ sender ∧ isOpen c = true ∧
          msg = ⟨k, v, orFalsy ts clock⟩))) ∧
    ((∃ e, st.keyState k = some e ∧ orFalsy ts clock ≤ e.timestamp) →
      (handleSet isOpen sender k v ts clock st).2 = []) := by
  constructor
  · intro hacc c msg
    have hsnd : (handleSet isOpen sender k v ts clock st).2 =
        ((st.subs k).filter (fun c => c != sender && isOpen c)).map
          (fun c => (c, ⟨k, v, orFalsy ts clock⟩)) := by
      rw [handleSet_eq_accept isOpen sender k v ts clock st
        ((lwwAccepts_true_iff _ _).mpr hacc)]
    rw [hsnd]
    simp only [List.mem_map, List.mem_filter]
    constructor
    · rintro ⟨c', ⟨hmem, hcond⟩, heq⟩
      cases heq
      simp only [Bool.and_eq_true, bne_iff_ne, ne_eq] at hcond
      exact ⟨hmem, hcond.1, hcond.2, rfl⟩
    · rintro ⟨hmem, hne, hop, hmsg⟩
      refine ⟨c, ⟨hmem, ?_⟩, by rw [hmsg]⟩
      simp only [Bool.and_eq_true, bne_iff_ne, ne_eq]
      exact ⟨hne, hop⟩
  · intro hrej
    rw [handleSet_eq_reject isOpen sender k v ts clock st
      ((lwwAccepts_false_iff _ _).mpr hrej)]

/-- Counterexample to C2 as stated: on an accepted update from sender 0,
connection 1 is currently subscribed to key k and is not the originator,
yet receives nothing because its transport is not open — the broadcast
goes to connection 2 alone. -/
theorem c2_counterexample :
    1 ∈ demoServer.subs "k" ∧
    (handleSet (fun c => c != 1) 0 "k" (7 : Int) (some 100) 50 demoServer).1.keyState "k" =
      some ⟨7, 100⟩ ∧
    (handleSet (fun c => c != 1) 0 "k" (7 : Int) (some 100) 50 demoServer).2.map
      Prod.fst = [2] := by
  refine ⟨by decide, rfl, by decide⟩

/-- Witness for C2 at a concrete accepted update (both subscribers open,
originator excluded) and a concrete rejected one. -/
theorem c2_witness :
    ((1, (⟨"k", 7, 100⟩ : SetMsg Int)) ∈
      (handleSet (fun _ => true) 0 "k" (7 : Int) (some 100) 50 demoServer).2) ∧
    (handleSet (fun _ => true) 0 "k" (7 : Int) (some 90) 50
      { demoServer with
          keyState := fun k => if k = "k" then some ⟨9, 100⟩ else none }).2 = [] :=
  ⟨((c2_broadcast_recipients (fun _ => true) 0 "k" (7 : Int) (some 100) 50 demoServer).1
      (Or.inl rfl) 1 ⟨"k", 7, 100⟩).mpr ⟨by decide, by decide, rfl, rfl⟩,
   (c2_broadcast_recipients (fun _ => true) 0 "k" (7 : Int) (some 90) 50
      { demoServer with
          keyState := fun k => if k = "k" then some ⟨9, 100⟩ else none }).2
      ⟨⟨9, 100⟩, by simp, by decide⟩⟩

/-- write never touches the synced value, the ready flag, the key, the
re-entrancy flag, the read-only flag or the default value. -/
theorem write_preserves (newValue : α) (ft : Option Nat) (so : Bool) (clock : Nat)
    (s : EngineState α) :
    (write newValue ft so clock s).1.stateValue = s.stateValue ∧
    (write newValue ft so clock s).1.ready = s.ready ∧
    (write newValue ft so clock s).1.key = s.key ∧
    (write newValue ft so clock s).1.isProcessingSocketMessage =
      s.isProcessingSocketMessage ∧
    (write newValue ft so clock s).1.readyOnly = s.readyOnly ∧
    (write newValue ft so clock s).1.defaultValue = s.defaultValue := by
  unfold write
  by_cases h1 : s.readyOnly
  · simp [h1]
  · by_cases h2 : clock < s.rateLimitedUntil
    · simp [h1, h2]
    · by_cases h3 : clock - s.lastRateLimitReset > 1000 <;> by_cases h4 : so <;>
        simp only [h1, h2, h3, h4, if_true, if_false, Bool.false_eq_true,
          ite_false, ite_true] <;>
        split <;> simp

/-- A write on an open socket that passes the read-only check and the
rate limiter sends the update message, stamped with the forced timestamp
when supplied and nonzero, else the clock; the pending write is left
alone. -/
theorem write_sends (newValue : α) (ft : Option Nat) (clock : Nat) (s : EngineState α)
    (hro : s.readyOnly = false) (hcool : s.rateLimitedUntil ≤ clock)
    (hcount : s.updatesLastSecond < 100) :
    (write newValue ft true clock s).2 = some ⟨s.key, newValue, orFalsy ft clock⟩ ∧
    (write newValue ft true clock s).1.pendingWrite = s.pendingWrite ∧
    (write newValue ft true clock s).1.timestamp = orFalsy ft clock := by
  unfold write
  simp only [hro, Bool.false_eq_true, if_false]
  rw [if_neg (Nat.not_lt.mpr hcool)]
  by_cases hwin : clock - s.lastRateLimitReset > 1000
  · simp [hwin]
  · simp only [hwin, if_false]
    rw [if_neg (by omega : ¬ 100 < s.updatesLastSecond + 1)]
    simp

/-- C4 (amended): on the handshake reply, when the server reports a
value: a PendingWrite with a timestamp strictly newer than the snapshot's
is kept as the local state, re-sent as an update carrying its original
timestamp (granted the rate limiter does not block it), and the engine
marks itself ready; otherwise the engine adopts the server's value and
timestamp, clears the pending write and marks itself ready.  When the
server reports no value, the engine adopts nothing: it keeps the pending
value when one exists, else falls back to its default value, writes that
value back to the hub (rate limiter permitting; the pending write keeps
its original timestamp, a default write is stamped with the clock), sets
its local timestamp to the clock reading and marks itself ready — which
is what makes the write-V-then-reconnect round trip hold whether or not
the earlier write reached the hub. -/
theorem c4_handshake_reconcile (s : EngineState α) (sv : α) (sts clock : Nat) :
    (∀ pw, s.pendingWrite = some pw → sts < pw.timestamp → s.readyOnly = false →
      s.rateLimitedUntil ≤ clock → s.updatesLastSecond < 100 →
      (handleInit (some sv) (some sts) true clock s).1.stateValue = pw.value ∧
      (handleInit (some sv) (some sts) true clock s).1.timestamp = pw.timestamp ∧
      (handleInit (some sv) (some sts) true clock s).1.ready = true ∧
      (handleInit (some sv) (some sts) true clock s).2 =
        some ⟨s.key, pw.value, pw.timestamp⟩) ∧
    ((s.pendingWrite = none ∨ ∃ pw, s.pendingWrite = some pw ∧ pw.timestamp ≤ sts) →
      handleInit (some sv) (some sts) true clock s =
        ({ s with
            stateValue := sv, timestamp := sts, pendingWrite := none,
            ready := true }, none)) ∧
    (∀ so clock2 sts2 pw, s.pendingWrite = some pw →
      (handleInit none sts2 so clock2 s).1.stateValue = pw.value ∧
      (handleInit none sts2 so clock2 s).1.ready = true) ∧
    (∀ clock2 sts2 pw, s.pendingWrite = some pw → s.readyOnly = false →
      s.rateLimitedUntil ≤ clock2 → s.updatesLastSecond < 100 →
      (handleInit none sts2 true clock2 s).2 =
        some ⟨s.key, pw.value, orFalsy (some pw.timestamp) clock2⟩ ∧
      (handleInit none sts2 true clock2 s).1.timestamp = clock2) ∧
    (∀ so clock2 sts2, s.pendingWrite = none →
      (handleInit none sts2 so clock2 s).1.stateValue = s.defaultValue ∧
      (handleInit none sts2 so clock2 s).1.ready = true) ∧
    (∀ clock2 sts2, s.pendingWrite = none → s.readyOnly = false →
      s.rateLimitedUntil ≤ clock2 → s.updatesLastSecond < 100 →
      (handleInit none sts2 true clock2 s).2 =
        some ⟨s.key, s.defaultValue, clock2⟩ ∧
      (handleInit none sts2 true clock2 s).1.timestamp = clock2) := by
  refine ⟨?_, ?_, ?_, ?_, ?_, ?_⟩
  · intro pw hpw hlt hro hcool hcount
    have hfal : orFalsy (some pw.timestamp) clock = pw.timestamp := by
      simp [orFalsy]
      omega
    have hws := write_sends pw.value (some pw.timestamp) clock
      { s with pendingWrite := some pw, stateValue := pw.value } hro hcool hcount
    have hwp := write_preserves pw.value (some pw.timestamp) true clock
      { s with pendingWrite := some pw, stateValue := pw.value }
    simp only [handleInit, hpw, Option.getD]
    rw [if_pos hlt]
    refine ⟨?_, rfl, rfl, ?_⟩
    · exact hwp.1
    · rw [hws.1, hfal]
  · intro hadopt
    rcases hadopt with hnone | ⟨pw, hpw, hle⟩
    · simp only [handleInit, hnone, Option.getD]
    · simp only [handleInit, hpw, Option.getD]
      rw [if_neg (Nat.not_lt.mpr hle)]
  · intro so clock2 sts2 pw hpw
    have hwp := write_preserves pw.value (some pw.timestamp) so clock2
      { s with pendingWrite := some pw, stateValue := pw.value }
    simp only [handleInit, hpw]
    exact ⟨hwp.1, by trivial⟩
  · intro clock2 sts2 pw hpw hro hcool hcount
    have hws := write_sends pw.value (some pw.timestamp) clock2
      { s with pendingWrite := some pw, stateValue := pw.value } hro hcool hcount
    simp only [handleInit, hpw]
    exact ⟨hws.1, by trivial⟩
  · intro so clock2 sts2 hpw
    have hwp := write_preserves s.defaultValue none so clock2
      { s with pendingWrite := none, stateValue := s.defaultValue }
    simp only [handleInit, hpw]
    exact ⟨hwp.1, by trivial⟩
  · intro clock2 sts2 hpw hro hcool hcount
    have hws := write_sends s.defaultValue none clock2
      { s with pendingWrite := none, stateValue := s.defaultValue } hro hcool hcount
    simp only [handleInit, hpw]
    exact ⟨hws.1, by trivial⟩

/-- Counterexample to C4 as stated: the first handshake reply carries no
server value (the hub has no Entry, snapshot timestamp 1000) while a
PendingWrite (7, 5) exists whose timestamp is not newer than the
snapshot's; the claim's otherwise-branch says the engine adopts the
server's value and timestamp and sends nothing, but the engine keeps the
pending value 7, re-sends it with timestamp 5, and sets its local
timestamp to the clock reading 200. -/
theorem c4_counterexample :
    ((5 : Nat) ≤ 1000) ∧
    (handleInit (none : Option Int) (some 1000) true 200
      { engine0 with ready := false, pendingWrite := some ⟨7, 5⟩ }).1.stateValue = 7 ∧
    (handleInit (none : Option Int) (some 1000) true 200
      { engine0 with ready := false, pendingWrite := some ⟨7, 5⟩ }).2 =
      some ⟨"k", 7, 5⟩ ∧
    (handleInit (none : Option Int) (some 1000) true 200
      { engine0 with ready := false, pendingWrite := some ⟨7, 5⟩ }).1.timestamp =
      200 := by
  refine ⟨by decide, rfl, rfl, rfl⟩

/-- Witness for C4: a concrete engine with pending write (7, 60) against
snapshot (9, 50) keeps 7, re-sends it at timestamp 60 and becomes ready;
with pending (7, 40) it adopts the server state instead; after a write
of V = 7 at T = 60 reached the hub, reconnecting with snapshot (7, 60)
ends holding 7; on a no-value reply the engine keeps the pending 7 and
writes it back at timestamp 60, and with no pending write it falls back
to the default value 0 and writes that back stamped with the clock
200. -/
theorem c4_witness :
    (handleInit (some (9 : Int)) (some 50) true 200
      { engine0 with ready := false, pendingWrite := some ⟨7, 60⟩ }).1.stateValue = 7 ∧
    (handleInit (some (9 : Int)) (some 50) true 200
      { engine0 with ready := false, pendingWrite := some ⟨7, 60⟩ }).2 =
      some ⟨"k", 7, 60⟩ ∧
    handleInit (some (9 : Int)) (some 50) true 200
        { engine0 with ready := false, pendingWrite := some ⟨7, 40⟩ } =
      ({ engine0 with
          ready := true, pendingWrite := none, stateValue := 9,
          timestamp := 50 }, none) ∧
    (handleInit (some (7 : Int)) (some 60) true 200
      { engine0 with ready := false, pendingWrite := some ⟨7, 60⟩ }).1.stateValue =
      7 ∧
    (handleInit (none : Option Int) (some 1000) true 200
      { engine0 with ready := false, pendingWrite := some ⟨7, 60⟩ }).1.stateValue =
      7 ∧
    (handleInit (none : Option Int) (some 1000) true 200
      { engine0 with ready := false, pendingWrite := some ⟨7, 60⟩ }).2 =
      some ⟨"k", 7, 60⟩ ∧
    (handleInit (none : Option Int) (some 1000) true 200
      { engine0 with ready := false }).1.stateValue = 0 ∧
    (handleInit (none : Option Int) (some 1000) true 200
      { engine0 with ready := false }).2 = some ⟨"k", 0, 200⟩ := by
  refine ⟨?_, ?_, ?_, ?_, ?_, ?_, ?_, ?_⟩
  · exact ((c4_handshake_reconcile
      { engine0 with ready := false, pendingWrite := some ⟨7, 60⟩ } (9 : Int) 50 200).1
      ⟨7, 60⟩ rfl (by decide) rfl (by decide) (by decide)).1
  · exact ((c4_handshake_reconcile
      { engine0 with ready := false, pendingWrite := some ⟨7, 60⟩ } (9 : Int) 50 200).1
      ⟨7, 60⟩ rfl (by decide) rfl (by decide) (by decide)).2.2.2
  · exact (c4_handshake_reconcile
      { engine0 with ready := false, pendingWrite := some ⟨7, 40⟩ } (9 : Int) 50 200).2.1
      (Or.inr ⟨⟨7, 40⟩, rfl, by decide⟩)
  · exact ((c4_handshake_reconcile
      { engine0 with ready := false, pendingWrite := some ⟨7, 60⟩ } (7 : Int) 60 200).2.1
      (Or.inr ⟨⟨7, 60⟩, rfl, by decide⟩)) ▸ rfl
  · exact ((c4_handshake_reconcile
      { engine0 with ready := false, pendingWrite := some ⟨7, 60⟩ } (9 : Int) 50 200).2.2.1
      true 200 (some 1000) ⟨7, 60⟩ rfl).1
  · exact ((c4_handshake_reconcile
      { engine0 with ready := false, pendingWrite := some ⟨7, 60⟩ } (9 : Int) 50 200).2.2.2.1
      200 (some 1000) ⟨7, 60⟩ rfl rfl (by decide) (by decide)).1
  · exact ((c4_handshake_reconcile
      { engine0 with ready := false } (9 : Int) 50 200).2.2.2.2.1
      true 200 (some 1000) rfl).1
  · exact ((c4_handshake_reconcile
      { engine0 with ready := false } (9 : Int) 50 200).2.2.2.2.2
      200 (some 1000) rfl rfl (by decide) (by decide)).1

/-- Pointwise description of the Entry map after one handleSet call. -/
theorem handleSet_keyState (isOpen : Nat → Bool) (sender : Nat) (key : String) (v : α)
    (ts : Option Nat) (clock : Nat) (st : ServerState α) (k : String) :
    (handleSet isOpen sender key v ts clock st).1.keyState k =
      (if lwwAccepts (st.keyState key) (orFalsy ts clock) = true then
        (if k = key then some ⟨v, orFalsy ts clock⟩ else st.keyState k)
      else st.keyState k) := by
  cases hb : lwwAccepts (st.keyState key) (orFalsy ts clock) with
  | true =>
      rw [handleSet_eq_accept isOpen sender key v ts clock st hb]
      simp
  | false =>
      rw [handleSet_eq_reject isOpen sender key v ts clock st hb]
      simp

/-- One handleSet call never decreases the stored timestamp of any key. -/
theorem entryTs_handleSet_mono (isOpen : Nat → Bool) (sender : Nat) (key : String)
    (v : α) (ts : Option Nat) (clock : Nat) (st : ServerState α) (k : String) :
    entryTs st k ≤ entryTs (handleSet isOpen sender key v ts clock st).1 k := by
  cases hb : lwwAccepts (st.keyState key) (orFalsy ts clock) with
  | false =>
      rw [handleSet_eq_reject isOpen sender key v ts clock st hb]
  | true =>
      by_cases hk : k = key
      · subst hk
        have hst := handleSet_keyState isOpen sender k v ts clock st k
        rw [if_pos hb, if_pos rfl] at hst
        rcases (lwwAccepts_true_iff (st.keyState k) (orFalsy ts clock)).mp hb with
          h | ⟨e, he, hlt⟩
        · unfold entryTs
          rw [hst, h]
          exact Nat.zero_le _
        · unfold entryTs
          rw [hst, he]
          show e.timestamp ≤ orFalsy ts clock
          exact Nat.le_of_lt hlt
      · simp [entryTs, handleSet_keyState, hb, hk]

/-- Running an appended batch of proposals is running them after the
first batch. -/
theorem runServer_append (isOpen : Nat → Bool) (ps qs : List (Proposal α)) :
    ∀ st : ServerState α,
      runServer isOpen (ps ++ qs) st = runServer isOpen qs (runServer isOpen ps st) := by
  induction ps with
  | nil => intro st; rfl
  | cons p rest ih =>
      intro st
      simp only [List.cons_append, runServer]
      exact ih _

/-- A whole run never decreases the stored timestamp of any key. -/
theorem entryTs_run_mono (isOpen : Nat → Bool) (k : String) :
    ∀ (ps : List (Proposal α)) (st : ServerState α),
      entryTs st k ≤ entryTs (runServer isOpen ps st) k := by
  intro ps
  induction ps with
  | nil => intro st; exact Nat.le_refl _
  | cons p rest ih =>
      intro st
      exact Nat.le_trans
        (entryTs_handleSet_mono isOpen p.sender p.key p.value p.timestamp p.clock st k)
        (ih _)

/-- The stored Entry of key k is untouched by a proposal that the trace
for k does not record: either it was rejected, or it targets another
key. -/
theorem handleSet_keyState_of_guard_false (isOpen : Nat → Bool) (p : Proposal α)
    (k : String) (st : ServerState α)
    (hgf : (p.key = k && lwwAccepts (st.keyState p.key)
      (orFalsy p.timestamp p.clock)) = false) :
    (handleSet isOpen p.sender p.key p.value p.timestamp p.clock st).1.keyState k =
      st.keyState k := by
  rw [handleSet_keyState]
  rcases Bool.and_eq_false_iff.mp hgf with hk | hb
  · by_cases hb2 : lwwAccepts (st.keyState p.key) (orFalsy p.timestamp p.clock) = true
    · rw [if_pos hb2, if_neg (fun h => by simp [h.symm] at hk)]
    · rw [if_neg hb2]
  · rw [hb]
    simp

/-- The stored Entry of key k after a proposal that the trace for k does
record: the new (value, now) pair. -/
theorem handleSet_keyState_of_guard_true (isOpen : Nat → Bool) (p : Proposal α)
    (k : String) (st : ServerState α)
    (hgt : (p.key = k && lwwAccepts (st.keyState p.key)
      (orFalsy p.timestamp p.clock)) = true) :
    (handleSet isOpen p.sender p.key p.value p.timestamp p.clock st).1.keyState k =
      some ⟨p.value, orFalsy p.timestamp p.clock⟩ := by
  obtain ⟨hk, hb⟩ := Bool.and_eq_true .. |>.mp hgt
  have hk' : p.key = k := of_decide_eq_true hk
  rw [handleSet_keyState, if_pos hb, if_pos hk'.symm]

/-- After a run, the stored Entry for a key is the last accepted
(value, timestamp) pair for that key, or the initial Entry if none was
accepted. -/
theorem runServer_keyState_eq_foldl (isOpen : Nat → Bool) (k : String) :
    ∀ (ps : List (Proposal α)) (st : ServerState α),
      (runServer isOpen ps st).keyState k =
        (acceptedTrace isOpen k ps st).foldl (fun _ x => some ⟨x.1, x.2⟩)
          (st.keyState k) := by
  intro ps
  induction ps with
  | nil => intro st; rfl
  | cons p rest ih =>
      intro st
      simp only [runServer, acceptedTrace]
      by_cases hg : (p.key = k && lwwAccepts (st.keyState p.key)
          (orFalsy p.timestamp p.clock)) = true
      · rw [if_pos hg, ih]
        simp only [List.singleton_append, List.foldl_cons,
          handleSet_keyState_of_guard_true isOpen p k st hg]
      · rw [if_neg hg, ih]
        simp only [List.nil_append,
          handleSet_keyState_of_guard_false isOpen p k st (Bool.eq_false_iff.mpr hg)]

/-- Along a run starting from a stored Entry, the accepted timestamps for
that key form a strictly increasing chain above the Entry timestamp. -/
theorem acceptedTrace_chain_from (isOpen : Nat → Bool) (k : String) :
    ∀ (ps : List (Proposal α)) (st : ServerState α) (e : Entry α),
      st.keyState k = some e →
      List.Chain (· < ·) e.timestamp
        ((acceptedTrace isOpen k ps st).map Prod.snd) := by
  intro ps
  induction ps with
  | nil =>
      intro st e _
      exact List.Chain.nil
  | cons p rest ih =>
      intro st e he
      simp only [acceptedTrace]
      by_cases hg : (p.key = k && lwwAccepts (st.keyState p.key)
          (orFalsy p.timestamp p.clock)) = true
      · obtain ⟨hk, hb⟩ := Bool.and_eq_true .. |>.mp hg
        have hk' : p.key = k := of_decide_eq_true hk
        rw [if_pos hg]
        have hlt : e.timestamp < orFalsy p.timestamp p.clock := by
          rcases (lwwAccepts_true_iff (st.keyState p.key)
              (orFalsy p.timestamp p.clock)).mp hb with h | ⟨e2, he2, hlt2⟩
          · rw [hk', he] at h
            exact Option.noConfusion h
          · rw [hk', he] at he2
            cases he2
            exact hlt2
        simp only [List.singleton_append, List.map_cons]
        exact List.Chain.cons hlt
          (ih _ _ (handleSet_keyState_of_guard_true isOpen p k st hg))
      · rw [if_neg hg]
        simp only [List.nil_append]
        refine ih _ _ ?_
        rw [handleSet_keyState_of_guard_false isOpen p k st (Bool.eq_false_iff.mpr hg)]
        exact he

/-- Along a run starting with no Entry for the key, the accepted
timestamps form a strictly increasing sequence. -/
theorem acceptedTrace_chain_none (isOpen : Nat → Bool) (k : String) :
    ∀ (ps : List (Proposal α)) (st : ServerState α),
      st.keyState k = none →
      List.Chain' (· < ·) ((acceptedTrace isOpen k ps st).map Prod.snd) := by
  intro ps
  induction ps with
  | nil =>
      intro st _
      simp [acceptedTrace]
  | cons p rest ih =>
      intro st he
      simp only [acceptedTrace]
      by_cases hg : (p.key = k && lwwAccepts (st.keyState p.key)
          (orFalsy p.timestamp p.clock)) = true
      · rw [if_pos hg]
        simp only [List.singleton_append, List.map_cons]
        exact acceptedTrace_chain_from isOpen k rest _ _
          (handleSet_keyState_of_guard_true isOpen p k st hg)
      · rw [if_neg hg]
        simp only [List.nil_append]
        refine ih _ ?_
        rw [handleSet_keyState_of_guard_false isOpen p k st (Bool.eq_false_iff.mpr hg)]
        exact he

/-- Every accepted timestamp for a key is at most the timestamp finally
stored for that key. -/
theorem acceptedTrace_le_final (isOpen : Nat → Bool) (k : String) :
    ∀ (ps : List (Proposal α)) (st : ServerState α),
      ∀ x ∈ acceptedTrace isOpen k ps st, x.2 ≤ entryTs (runServer isOpen ps st) k := by
  intro ps
  induction ps with
  | nil =>
      intro st x hx
      simp [acceptedTrace] at hx
  | cons p rest ih =>
      intro st x hx
      simp only [acceptedTrace] at hx
      by_cases hg : (p.key = k && lwwAccepts (st.keyState p.key)
          (orFalsy p.timestamp p.clock)) = true
      · rw [if_pos hg] at hx
        simp only [List.singleton_append, List.mem_cons] at hx
        rcases hx with hx | hx
        · subst hx
          have hts : entryTs (handleSet isOpen p.sender p.key p.value p.timestamp
              p.clock st).1 k = orFalsy p.timestamp p.clock := by
            unfold entryTs
            rw [handleSet_keyState_of_guard_true isOpen p k st hg]
          calc orFalsy p.timestamp p.clock
              = entryTs (handleSet isOpen p.sender p.key p.value p.timestamp
                  p.clock st).1 k := hts.symm
            _ ≤ entryTs (runServer isOpen (p :: rest) st) k :=
                entryTs_run_mono isOpen k rest _
        · exact ih _ x hx
      · rw [if_neg hg] at hx
        simp only [List.nil_append] at hx
        exact ih _ x hx

/-- C3: starting from the empty hub, for every key and every sequence of
update proposals: the stored timestamp never decreases from one handled
proposal to the next; the timestamps of the accepted proposals for the
key are strictly increasing; the stored Entry is exactly the last
accepted (value, timestamp) pair (absent when nothing was accepted); and
every accepted timestamp is at most the stored one — so the stored value
is the value of the accepted proposal bearing the strictly greatest
accepted timestamp. -/
theorem c3_monotone_lww_store (isOpen : Nat → Bool) (ps : List (Proposal α))
    (p : Proposal α) (k : String) :
    entryTs (runServer isOpen ps (emptyServer α)) k ≤
      entryTs (runServer isOpen (ps ++ [p]) (emptyServer α)) k ∧
    List.Chain' (· < ·) ((acceptedTrace isOpen k ps (emptyServer α)).map Prod.snd) ∧
    (runServer isOpen ps (emptyServer α)).keyState k =
      (acceptedTrace isOpen k ps (emptyServer α)).foldl
        (fun _ x => some ⟨x.1, x.2⟩) none ∧
    (∀ x ∈ acceptedTrace isOpen k ps (emptyServer α),
      x.2 ≤ entryTs (runServer isOpen ps (emptyServer α)) k) := by
  refine ⟨?_, ?_, ?_, ?_⟩
  · rw [runServer_append]
    exact entryTs_handleSet_mono isOpen p.sender p.key p.value p.timestamp p.clock _ k
  · exact acceptedTrace_chain_none isOpen k ps (emptyServer α) rfl
  · exact runServer_keyState_eq_foldl isOpen k ps (emptyServer α)
  · exact acceptedTrace_le_final isOpen k ps (emptyServer α)

/-- On an engine that is ready and not inside a socket-message handler,
a local mutation is exactly a write of the new value on the updated
ref. -/
theorem localMutation_eq_write (v : α) (so : Bool) (clock : Nat) (s : EngineState α)
    (hflag : s.isProcessingSocketMessage = false) (hready : s.ready = true) :
    localMutation v so clock s = write v none so clock { s with stateValue := v } := by
  simp [localMutation, hflag, hready]

/-- Unfolding lemma for one step of runWrites. -/
theorem runWrites_cons (so : Bool) (t : Nat) (v : α) (rest : List (Nat × α))
    (s : EngineState α) :
    runWrites so ((t, v) :: rest) s =
      ((runWrites so rest (localMutation v so t s).1).1,
        countMsg (localMutation v so t s).2 +
          (runWrites so rest (localMutation v so t s).1).2) := rfl

/-- Exhaustive description of a single write on an open socket inside the
current one-second window (so the window counter is not reset): dropped
by the read-only flag, dropped by an active cooldown, counted and dropped
with a fresh cooldown when the counter passes 100, or counted and
sent. -/
theorem write_cases (v : α) (t t0 : Nat) (s : EngineState α)
    (hreset : s.lastRateLimitReset = t0) (hle : t ≤ t0 + 1000) :
    (s.readyOnly = true ∧ write v none true t s = (s, none)) ∨
    (s.readyOnly = false ∧ t < s.rateLimitedUntil ∧
      write v none true t s = (s, none)) ∨
    (s.readyOnly = false ∧ s.rateLimitedUntil ≤ t ∧ 100 ≤ s.updatesLastSecond ∧
      write v none true t s =
        ({ s with
            updatesLastSecond := s.updatesLastSecond + 1,
            rateLimitedUntil := t + 1000 }, none)) ∨
    (s.readyOnly = false ∧ s.rateLimitedUntil ≤ t ∧ s.updatesLastSecond < 100 ∧
      write v none true t s =
        ({ s with
            updatesLastSecond := s.updatesLastSecond + 1, timestamp := t },
          some ⟨s.key, v, t⟩)) := by
  have hnoreset : ¬ t - s.lastRateLimitReset > 1000 := by omega
  by_cases hro : s.readyOnly
  · exact Or.inl ⟨hro, by simp [write, hro]⟩
  · have hro' : s.readyOnly = false := Bool.eq_false_iff.mpr hro
    by_cases hcool : t < s.rateLimitedUntil
    · exact Or.inr (Or.inl ⟨hro', hcool, by simp [write, hro', hcool]⟩)
    · by_cases hcnt : 100 < s.updatesLastSecond + 1
      · refine Or.inr (Or.inr (Or.inl ⟨hro', Nat.not_lt.mp hcool, by omega, ?_⟩))
        simp only [write, hro', Bool.false_eq_true, if_false, hcool, hnoreset]
        rw [if_pos hcnt]
      · refine Or.inr (Or.inr (Or.inr ⟨hro', Nat.not_lt.mp hcool, by omega, ?_⟩))
        simp only [write, hro', Bool.false_eq_true, if_false, hcool, hnoreset]
        rw [if_neg hcnt]
        simp [orFalsy]

/-- Count invariant for a run of in-window writes on an open socket: the
number of sent messages equals the growth of min(counter, 100), and the
window start, re-entrancy flag, ready flag and read-only flag are
preserved. -/
theorem c7_run_count (t0 : Nat) :
    ∀ (reqs : List (Nat × α)) (s : EngineState α),
      (∀ x ∈ reqs, t0 ≤ x.1 ∧ x.1 ≤ t0 + 1000) →
      s.lastRateLimitReset = t0 → s.isProcessingSocketMessage = false →
      s.ready = true →
      (runWrites true reqs s).2 + min s.updatesLastSecond 100 =
        min (runWrites true reqs s).1.updatesLastSecond 100 ∧
      (runWrites true reqs s).1.lastRateLimitReset = t0 ∧
      (runWrites true reqs s).1.isProcessingSocketMessage = false ∧
      (runWrites true reqs s).1.ready = true := by
  intro reqs
  induction reqs with
  | nil =>
      intro s _ hreset hflag hready
      exact ⟨by simp [runWrites], hreset, hflag, hready⟩
  | cons q rest ih =>
      intro s hin hreset hflag hready
      obtain ⟨t, v⟩ := q
      have hq := hin (t, v) (List.mem_cons_self _ _)
      have hin' : ∀ x ∈ rest, t0 ≤ x.1 ∧ x.1 ≤ t0 + 1000 :=
        fun x hx => hin x (List.mem_cons_of_mem _ hx)
      rw [runWrites_cons, localMutation_eq_write v true t s hflag hready]
      rcases write_cases v t t0 { s with stateValue := v } hreset hq.2 with
        ⟨_, hw⟩ | ⟨_, _, hw⟩ | ⟨_, _, hcnt, hw⟩ | ⟨_, _, hcnt, hw⟩ <;> rw [hw]
      · obtain ⟨h1, h2, h3, h4⟩ := ih { s with stateValue := v } hin' hreset hflag hready
        exact ⟨by simpa [countMsg] using h1, h2, h3, h4⟩
      · obtain ⟨h1, h2, h3, h4⟩ := ih { s with stateValue := v } hin' hreset hflag hready
        exact ⟨by simpa [countMsg] using h1, h2, h3, h4⟩
      · obtain ⟨h1, h2, h3, h4⟩ := ih
          { s with
              stateValue := v, updatesLastSecond := s.updatesLastSecond + 1,
              rateLimitedUntil := t + 1000 } hin' hreset hflag hready
        refine ⟨?_, h2, h3, h4⟩
        have hcnt' : 100 ≤ s.updatesLastSecond := hcnt
        have e1 : ({ s with
            stateValue := v, updatesLastSecond := s.updatesLastSecond + 1,
            rateLimitedUntil := t + 1000 } : EngineState α).updatesLastSecond =
            s.updatesLastSecond + 1 := rfl
        rw [e1] at h1
        simp only [countMsg]
        omega
      · obtain ⟨h1, h2, h3, h4⟩ := ih
          { s with
              stateValue := v, updatesLastSecond := s.updatesLastSecond + 1,
              timestamp := t } hin' hreset hflag hready
        refine ⟨?_, h2, h3, h4⟩
        have hcnt' : s.updatesLastSecond < 100 := hcnt
        have e1 : ({ s with
            stateValue := v, updatesLastSecond := s.updatesLastSecond + 1,
            timestamp := t } : EngineState α).updatesLastSecond =
            s.updatesLastSecond + 1 := rfl
        rw [e1] at h1
        simp only [countMsg]
        omega

/-- Exact count for a fresh window: as long as the counter plus the
number of requests stays at or below 101 and no cooldown is pending,
every request up to the hundredth is sent and the rest are dropped. -/
theorem c7_run_exact (t0 : Nat) :
    ∀ (reqs : List (Nat × α)) (s : EngineState α),
      (∀ x ∈ reqs, t0 ≤ x.1 ∧ x.1 ≤ t0 + 1000) →
      s.lastRateLimitReset = t0 → s.isProcessingSocketMessage = false →
      s.ready = true → s.readyOnly = false → s.rateLimitedUntil = 0 →
      s.updatesLastSecond + reqs.length ≤ 101 →
      (runWrites true reqs s).2 =
        min (s.updatesLastSecond + reqs.length) 100 - min s.updatesLastSecond 100 := by
  intro reqs
  induction reqs with
  | nil =>
      intro s _ _ _ _ _ _ _
      simp [runWrites]
  | cons q rest ih =>
      intro s hin hreset hflag hready hro hcool hlen
      obtain ⟨t, v⟩ := q
      have hq := hin (t, v) (List.mem_cons_self _ _)
      have hin' : ∀ x ∈ rest, t0 ≤ x.1 ∧ x.1 ≤ t0 + 1000 :=
        fun x hx => hin x (List.mem_cons_of_mem _ hx)
      rw [runWrites_cons, localMutation_eq_write v true t s hflag hready]
      rcases write_cases v t t0 { s with stateValue := v } hreset hq.2 with
        ⟨hro', _⟩ | ⟨_, hlt, _⟩ | ⟨_, _, hcnt, hw⟩ | ⟨_, _, hcnt, hw⟩
      · rw [hro] at hro'
        exact Bool.noConfusion hro'
      · rw [hcool] at hlt
        omega
      · rw [hw]
        have hcnt' : 100 ≤ s.updatesLastSecond := hcnt
        have hrest : rest = [] := by
          cases rest with
          | nil => rfl
          | cons a l =>
              simp only [List.length_cons] at hlen
              omega
        subst hrest
        simp only [runWrites, countMsg, List.length_cons, List.length_nil]
        omega
      · rw [hw]
        have hcnt' : s.updatesLastSecond < 100 := hcnt
        have h := ih
          { s with
              stateValue := v, updatesLastSecond := s.updatesLastSecond + 1,
              timestamp := t } hin' hreset hflag hready hro hcool
          (by
            simp only [List.length_cons] at hlen
            show s.updatesLastSecond + 1 + rest.length ≤ 101
            omega)
        rw [h]
        have e1 : ({ s with
            stateValue := v, updatesLastSecond := s.updatesLastSecond + 1,
            timestamp := t } : EngineState α).updatesLastSecond =
            s.updatesLastSecond + 1 := rfl
        rw [e1]
        simp only [countMsg, List.length_cons]
        omega

/-- C7: over any batch of local writes whose clock readings lie inside
one one-second rate window of the engine, at most 100 outbound update
messages are sent; on a fresh engine (zero counter, no pending cooldown)
a batch of 101 such writes sends exactly 100 messages; the write that
takes the window counter past 100 is counted but dropped — the pending
write is untouched, nothing is queued — and it starts a cooldown of
1000 ms from its clock reading, during which any further write is
dropped immediately. -/
theorem c7_rate_limit (t0 : Nat) (reqs : List (Nat × α)) (s : EngineState α)
    (hin : ∀ x ∈ reqs, t0 ≤ x.1 ∧ x.1 ≤ t0 + 1000)
    (hreset : s.lastRateLimitReset = t0)
    (hflag : s.isProcessingSocketMessage = false) (hready : s.ready = true) :
    (runWrites true reqs s).2 ≤ 100 ∧
    (s.readyOnly = false → s.rateLimitedUntil = 0 → s.updatesLastSecond = 0 →
      reqs.length = 101 → (runWrites true reqs s).2 = 100) ∧
    (∀ v clock clock2, s.readyOnly = false → s.updatesLastSecond = 100 →
      s.rateLimitedUntil ≤ clock → clock ≤ t0 + 1000 →
      write v none true clock s =
        ({ s with
            updatesLastSecond := 101,
            rateLimitedUntil := clock + 1000 }, none) ∧
      (clock2 < clock + 1000 →
        (write (v : α) none true clock2
          { s with
              updatesLastSecond := 101,
              rateLimitedUntil := clock + 1000 }).2 = none)) := by
  refine ⟨?_, ?_, ?_⟩
  · obtain ⟨h1, _, _, _⟩ := c7_run_count t0 reqs s hin hreset hflag hready
    omega
  · intro hro hcool hzero hlen
    have h := c7_run_exact t0 reqs s hin hreset hflag hready hro hcool
      (by omega)
    rw [h, hzero, hlen]
    omega
  · intro v clock clock2 hro hundred hcool hle
    constructor
    · rcases write_cases v clock t0 s hreset hle with
        ⟨hro', _⟩ | ⟨_, hlt, _⟩ | ⟨_, _, _, hw⟩ | ⟨_, _, hcnt, _⟩
      · rw [hro] at hro'
        exact Bool.noConfusion hro'
      · omega
      · rw [hw, hundred]
      · omega
    · intro hlt2
      have : clock2 < ({ s with
          updatesLastSecond := 101,
          rateLimitedUntil := clock + 1000 } : EngineState α).rateLimitedUntil := hlt2
      simp [write, this]

/-- Witness for C7: 101 concrete writes at clock readings 0..100 on a
fresh ready engine send exactly 100 update messages. -/
theorem c7_witness : (runWrites true reqs101 engine0).2 = 100 := by
  have h := (c7_rate_limit 0 reqs101 engine0
    (by
      intro x hx
      simp only [reqs101, List.mem_map, List.mem_range] at hx
      obtain ⟨i, hi, rfl⟩ := hx
      exact ⟨Nat.zero_le _, by omega⟩)
    rfl rfl rfl).2.1 rfl rfl rfl (by simp [reqs101])
  exact h

end SocketRef
